import Mathlib

/-!
Verification development for the content-molle batch backend.

The JavaScript sources are shallowly embedded: pure computations become Lean
functions, the stateful limiter and scheduler become explicit state-passing
functions, JavaScript numbers holding small counters become `Int`/`Nat`, and
the random source (`Math.random()`) is passed in as an explicit stream of
naturals so that every theorem quantifies over all possible random draws.
String fields that only travel through records keep Lean's `String`; the CSV
field encoder is modelled over `List Char` (a character-sequence view of a
JavaScript string) so that its round-trip behaviour can be proved.
-/

namespace ContentMolle

/-! ## Concurrency limiter (src/index.js, `tryAcquireBatch` / `releaseBatch`)

The counter `activeBatches` is a module-level JavaScript number; we thread it
explicitly.  `tryAcquireBatch` returns the boolean result together with the
updated counter. -/

/-- Model of `tryAcquireBatch`: if `activeBatches >= MAX_CONCURRENT_BATCHES`
return `false` leaving the counter alone, else increment and return `true`. -/
def tryAcquireBatch (maxConcurrent active : Int) : Bool × Int :=
  if active ≥ maxConcurrent then (false, active) else (true, active + 1)

/-- Model of `releaseBatch`: `activeBatches = Math.max(0, activeBatches - 1)`. -/
def releaseBatch (active : Int) : Int := max 0 (active - 1)

/-! ## ffmpeg invocation (src/index.js, `runFfmpegLevel1`, queue snapshot)

`runFfmpegLevel1` builds a fixed filter string `vf` and a fixed argument list
`baseArgs`; the only inputs are the input and output file paths.  We model the
argument list it hands to the spawned ffmpeg process (the audio-copy attempt;
the AAC fallback differs only in the trailing audio arguments, not in the
derived visual parameters). -/

/-- The constant `vf` filter string of `runFfmpegLevel1` (current snapshot). -/
def vfLevel1 : String :=
  "scale=w=1080:h=1920:force_original_aspect_ratio=decrease:flags=bilinear," ++
  "pad=1080:1920:(1080-iw)/2:(1920-ih)/2," ++
  "eq=contrast=1.012:saturation=1.006:brightness=0.004"

/-- The `baseArgs` list of `runFfmpegLevel1` for a given input path. -/
def baseArgsLevel1 (inputPath : String) : List String :=
  ["-y", "-hide_banner", "-nostdin", "-i", inputPath, "-vf", vfLevel1,
   "-c:v", "libx264", "-profile:v", "high", "-pix_fmt", "yuv420p",
   "-preset", "superfast", "-crf", "23", "-threads", "2",
   "-movflags", "+faststart"]

/-- The full argument list of the first ffmpeg attempt (`tryCopyAudio`). -/
def runFfmpegLevel1Args (inputPath outPath : String) : List String :=
  baseArgsLevel1 inputPath ++ ["-c:a", "copy", outPath]

/-- The transform parameter bundle (filter string plus encoder settings, the
non-path part of the argument list) handed to ffmpeg for the item with the
given global ordinal.  In the source these values are computed once, with no
reference to the item index, so the bundle is a constant function of the
ordinal. -/
def transformParamBundle (globalOrdinal : Nat) : List String :=
  ["-vf", vfLevel1, "-c:v", "libx264", "-profile:v", "high",
   "-pix_fmt", "yuv420p", "-preset", "superfast", "-crf", "23",
   "-threads", "2", "-movflags", "+faststart"]

/-- Input temp path used by `processOneJob` for item `i`. -/
def itemInputPath (tmpDir : String) (i : Nat) : String :=
  tmpDir ++ "/in_" ++ toString i ++ ".mp4"

/-- Output temp path used by `processOneJob` for item `i`. -/
def itemOutPath (tmpDir : String) (i : Nat) : String :=
  tmpDir ++ "/out_" ++ toString i ++ ".mp4"

/-- Sanity: the full argv decomposes as a path prefix, the (ordinal
independent) parameter bundle, and the audio/output suffix. -/
theorem runFfmpegLevel1Args_decompose (i : Nat) (inputPath outPath : String) :
    runFfmpegLevel1Args inputPath outPath =
      ["-y", "-hide_banner", "-nostdin", "-i", inputPath] ++
        transformParamBundle i ++ ["-c:a", "copy", outPath] := rfl

/-! ## CSV field escaping (src/csv.js, `escapeCsv`)

Modelled over `List Char`.  `doubleQuotes` is the character-level meaning of
`s.replaceAll('"', '""')`. -/

/-- Character-level model of `s.replaceAll` doubling every double quote. -/
def doubleQuotes : List Char → List Char
  | [] => []
  | c :: rest =>
    if c = '"' then '"' :: '"' :: doubleQuotes rest else c :: doubleQuotes rest

/-- The quoting condition of `escapeCsv`: the string contains a comma, a
double quote, a newline or a carriage return. -/
def needsQuoting (s : List Char) : Bool :=
  s.contains ',' || s.contains '"' || s.contains '\n' || s.contains '\r'

/-- Model of `escapeCsv`: quote and double internal quotes when needed. -/
def escapeCsv (s : List Char) : List Char :=
  if needsQuoting s then '"' :: (doubleQuotes s ++ ['"']) else s

/-- Modelled from the spec: the standard CSV un-quoting (decode) step, which
is not part of the repository; it strips one layer of surrounding quotes and
undoubles internal quote pairs. -/
def undoubleQuotes : List Char → List Char
  | [] => []
  | [c] => [c]
  | c :: d :: rest =>
    if c = '"' ∧ d = '"' then '"' :: undoubleQuotes rest
    else c :: undoubleQuotes (d :: rest)

/-- Modelled from the spec: standard CSV field decode — a field that starts
and ends with a double quote is unwrapped and its doubled quotes collapsed;
any other field is returned unchanged. -/
def csvDecode (s : List Char) : List Char :=
  match s with
  | [] => []
  | c :: rest =>
    if c = '"' ∧ rest.getLast? = some '"' then undoubleQuotes rest.dropLast
    else c :: rest

theorem undoubleQuotes_cons_of_ne (c : Char) (l : List Char) (hc : c ≠ '"') :
    undoubleQuotes (c :: l) = c :: undoubleQuotes l := by
  cases l with
  | nil => rfl
  | cons e es => simp [undoubleQuotes, hc]

theorem undoubleQuotes_doubleQuotes (s : List Char) :
    undoubleQuotes (doubleQuotes s) = s := by
  induction s with
  | nil => rfl
  | cons c rest ih =>
    by_cases hc : c = '"'
    · subst hc
      have h1 : doubleQuotes ('"' :: rest) = '"' :: '"' :: doubleQuotes rest := by
        simp [doubleQuotes]
      rw [h1]
      simp [undoubleQuotes, ih]
    · have h1 : doubleQuotes (c :: rest) = c :: doubleQuotes rest := by
        simp [doubleQuotes, hc]
      rw [h1, undoubleQuotes_cons_of_ne c _ hc, ih]

theorem csvDecode_escapeCsv (s : List Char) : csvDecode (escapeCsv s) = s := by
  unfold escapeCsv
  split
  · next hq =>
    show csvDecode ('"' :: (doubleQuotes s ++ ['"'])) = s
    have hlast : (doubleQuotes s ++ ['"']).getLast? = some '"' := by simp
    have hdrop : (doubleQuotes s ++ ['"']).dropLast = doubleQuotes s := by simp
    simp only [csvDecode]
    rw [if_pos ⟨trivial, hlast⟩, hdrop, undoubleQuotes_doubleQuotes]
  · next hq =>
    have hmem : ¬('"' ∈ s) := by
      intro hm
      apply hq
      simp only [needsQuoting, Bool.or_eq_true]
      exact Or.inl (Or.inl (Or.inr (List.elem_iff.mpr hm)))
    cases s with
    | nil => rfl
    | cons c rest =>
      have hc : ¬(c = '"') := fun h => hmem (h ▸ List.mem_cons_self c rest)
      simp only [csvDecode]
      rw [if_neg]
      intro hand
      exact hc hand.1

/-! ## Caption / hashtag allocator (src/captions.js)

`Math.random()` is modelled by explicit streams of naturals: the Fisher-Yates
loop at index `i` draws `rng i` and uses `rng i % (i + 1)` as the swap target,
which ranges over exactly the values `Math.floor(Math.random() * (i + 1))`
can take.  Every theorem below quantifies over all such streams, so it covers
every possible sequence of random draws. -/

/-- Swap the entries at positions `i` and `j` (identity when out of range),
the effect of the destructuring assignment in `shuffle`. -/
def listSwap (a : List α) (i j : Nat) : List α :=
  match a.get? i, a.get? j with
  | some x, some y => (a.set i y).set j x
  | _, _ => a

/-- The Fisher-Yates loop of `shuffle`, counting the loop index down from
`n` to `1`: at index `i` the element is swapped with a random position
`j ≤ i`. -/
def shuffleFrom (rng : Nat → Nat) (a : List α) : Nat → List α
  | 0 => a
  | n + 1 => shuffleFrom rng (listSwap a (n + 1) (rng (n + 1) % (n + 2))) n

/-- Model of `shuffle`: Fisher-Yates over a copy of the array. -/
def shuffleList (rng : Nat → Nat) (a : List α) : List α :=
  shuffleFrom rng a (a.length - 1)

theorem set_cons_perm {α : Type} (t : List α) (m : Nat) (x y : α)
    (h : t.get? m = some y) : List.Perm (y :: t.set m x) (x :: t) := by
  induction t generalizing m with
  | nil => simp at h
  | cons c t' ih =>
    cases m with
    | zero =>
      have hc : c = y := by simpa using h
      subst hc
      simpa using List.Perm.swap x c t'
    | succ m' =>
      simp only [List.get?_cons_succ] at h
      have step : List.Perm (y :: t'.set m' x) (x :: t') := ih m' h
      have e1 : (c :: t').set (m' + 1) x = c :: t'.set m' x := by simp
      rw [e1]
      have p1 : List.Perm (y :: c :: t'.set m' x) (c :: y :: t'.set m' x) :=
        List.Perm.swap c y _
      have p2 : List.Perm (c :: y :: t'.set m' x) (c :: x :: t') := step.cons c
      have p3 : List.Perm (c :: x :: t') (x :: c :: t') := List.Perm.swap x c t'
      exact (p1.trans p2).trans p3

theorem set_set_perm {α : Type} (a : List α) (i j : Nat) (x y : α)
    (hx : a.get? i = some x) (hy : a.get? j = some y) :
    List.Perm ((a.set i y).set j x) a := by
  induction a generalizing i j with
  | nil => simp at hx
  | cons hd t ih =>
    cases i with
    | zero =>
      have hdx : hd = x := by simpa using hx
      subst hdx
      cases j with
      | zero =>
        have hxy : hd = y := by simpa using hy
        subst hxy
        simp
      | succ m =>
        simp only [List.get?_cons_succ] at hy
        simpa using set_cons_perm t m hd y hy
    | succ n =>
      simp only [List.get?_cons_succ] at hx
      cases j with
      | zero =>
        have hdy : hd = y := by simpa using hy
        subst hdy
        simpa using set_cons_perm t n hd x hx
      | succ m =>
        simp only [List.get?_cons_succ] at hy
        simpa using (ih n m hx hy).cons hd

theorem listSwap_perm {α : Type} (a : List α) (i j : Nat) :
    List.Perm (listSwap a i j) a := by
  unfold listSwap
  cases hx : a.get? i with
  | none => exact List.Perm.refl a
  | some x =>
    cases hy : a.get? j with
    | none => exact List.Perm.refl a
    | some y => exact set_set_perm a i j x y hx hy

theorem shuffleFrom_perm {α : Type} (rng : Nat → Nat) :
    ∀ (n : Nat) (a : List α), List.Perm (shuffleFrom rng a n) a := by
  intro n
  induction n with
  | zero => intro a; exact List.Perm.refl a
  | succ n ih =>
    intro a
    exact (ih _).trans (listSwap_perm a (n + 1) (rng (n + 1) % (n + 2)))

theorem shuffleList_perm {α : Type} (rng : Nat → Nat) (a : List α) :
    List.Perm (shuffleList rng a) a :=
  shuffleFrom_perm rng (a.length - 1) a

/-- The caption pool (src/captions.js, `CAPTIONS`, 40 entries). -/
def CAPTIONS : List String :=
  ["That icy hit when you least expect it 🧊",
   "One pouch and suddenly it’s a new personality.",
   "This is your sign to switch the vibe.",
   "Minty? Or *menace*? 😈",
   "Clean look, questionable decisions.",
   "POV: you’re “just chilling” but your pulse says otherwise.",
   "If it’s too quiet… you know what to do.",
   "The tiny habit that starts big energy.",
   "Low effort. High effect.",
   "Mood: ice-cold focus.",
   "Not a phase. It’s a flavor profile.",
   "When the vibe is crisp, everything else follows.",
   "IYKYK… the pouch people get it.",
   "A little pick-me-up, but make it subtle.",
   "This isn’t a routine, it’s a ritual.",
   "The quiet flex no one talks about.",
   "One of those “don’t ask” habits.",
   "Soft launch of bad influence.",
   "Crisp taste, chaotic plans.",
   "If you know, you *know*.",
   "That fresh feeling hits different at 2am",
   "When the mint is stronger than your self control",
   "Main character energy in a small tin",
   "Cool down, level up",
   "Zero effort maximum vibe shift",
   "The upgrade nobody asked about but everyone noticed",
   "Underrated but never underestimated",
   "Ice cold mentality starts here",
   "Just a little something to switch the mood",
   "That crisp focus when you need it most",
   "Subtle chaos in your pocket",
   "The vibe check nobody saw coming",
   "When minty fresh becomes a lifestyle",
   "This one hits at the right time every time",
   "Energy shift loading",
   "Small moves big changes",
   "The comeback starts with the comeback flavor",
   "Quiet confidence loud results",
   "Chill mode activated",
   "That one thing that just makes sense"]

/-- The hashtag pool (src/captions.js, `HASHTAGS`, 53 entries). -/
def HASHTAGS : List String :=
  ["#fyp", "#foryou", "#viral", "#europe", "#eu",
   "#snooze", "#snoozetok",
   "#iceberg", "#maggie", "#pablo",
   "#mint", "#ice", "#chillvibes", "#nightdrive", "#dailyvibes",
   "#focusmode", "#energycheck", "#lowkey", "#aesthetic", "#cleanedit",
   "#pouch", "#nic", "#prilla", "#icy",
   "#vibes", "#mood", "#energy", "#fresh", "#crisp",
   "#coldvibes", "#frosty", "#chill", "#relax", "#focus",
   "#nightlife", "#latenight", "#midnightvibes", "#afterhours",
   "#minimal", "#clean", "#smooth", "#pure", "#simple",
   "#upgrade", "#levelup", "#nextlevel", "#newera", "#switch",
   "#dailyroutine", "#habit", "#lifestyle", "#vibe", "#shift"]

/-- The five caption presentation styles of `makeBatchCaptions`, selected by
`i % captionStyles.length`. -/
def captionStyle (k : Nat) (c : String) : String :=
  match k with
  | 0 => c
  | 1 => c.toLower
  | 2 => c ++ " 👀"
  | 3 => c.replace "." ""
  | _ => ((c.splitOn ".").getD 0 "") ++ "..."

/-- The greedy unique-tag collection loop of `makeBatchCaptions`: walk the
rotated pool, pushing unseen tags, stopping once `needed` tags are held. -/
def pickUniqueAux (needed : Nat) (acc : List String) : List String → List String
  | [] => acc
  | t :: rest =>
    let acc2 := if t ∈ acc then acc else acc ++ [t]
    if needed ≤ acc2.length then acc2 else pickUniqueAux needed acc2 rest

/-- The tag-collection loop started from an empty accumulator. -/
def pickUnique (needed : Nat) (pool : List String) : List String :=
  pickUniqueAux needed [] pool

/-- One caption/hashtag assignment (an element of `captionsPack.items`). -/
structure CapItem where
  caption : String
  hashtags : List String
deriving DecidableEq

/-- The random draws consumed by one `makeBatchCaptions` call, split into the
independent streams the source consumes: the two pool shuffles, the per-item
hashtag-count draw, and the per-item final tag shuffle. -/
structure CapEnv where
  capShuf : Nat → Nat
  tagShuf : Nat → Nat
  neededR : Nat → Nat
  itemShuf : Nat → Nat → Nat

/-- The body of the `for` loop of `makeBatchCaptions` for index `i`, applied
to the already-shuffled caption and hashtag pools. -/
def makeOneItem (caps tags : List String) (env : CapEnv) (i : Nat) : CapItem :=
  let rawCaption := caps.getD (i % caps.length) ""
  let caption := captionStyle (i % 5) rawCaption
  let needed := 6 + env.neededR i % 5
  let start := (i * 3) % tags.length
  let pool := tags.drop start ++ tags.take start
  let itemTags := pickUnique needed pool
  ⟨caption, shuffleList (env.itemShuf i) itemTags⟩

/-- Model of `makeBatchCaptions` (src/captions.js).  The pools are passed as
parameters (the source closes over the module-level constants `CAPTIONS` and
`HASHTAGS`); the returned `id` field (a fresh `nanoid`) is an external random
identifier and is not modelled.  `theme` is accepted and ignored exactly as in
the source. -/
def makeBatchCaptions (capsPool tagsPool : List String) (env : CapEnv)
    (count : Nat) (noCaptionMode : Bool) (theme : String) : List CapItem :=
  if noCaptionMode then
    List.replicate count ⟨"", []⟩
  else
    (List.range count).map
      (makeOneItem (shuffleList env.capShuf capsPool)
        (shuffleList env.tagShuf tagsPool) env)

theorem HASHTAGS_nodup : HASHTAGS.Nodup := by decide

theorem HASHTAGS_length : HASHTAGS.length = 53 := by rfl

theorem getD_range_map {β : Type} (f : Nat → β) (n i : Nat) (d : β)
    (hi : i < n) : ((List.range n).map f).getD i d = f i := by
  have hl : i < ((List.range n).map f).length := by simp [hi]
  rw [List.getD_eq_getElem _ _ hl]
  simp

theorem makeBatchCaptions_getD (capsPool tagsPool : List String) (env : CapEnv)
    (count : Nat) (theme : String) (i : Nat) (hi : i < count) :
    (makeBatchCaptions capsPool tagsPool env count false theme).getD i ⟨"", []⟩ =
      makeOneItem (shuffleList env.capShuf capsPool)
        (shuffleList env.tagShuf tagsPool) env i := by
  show ((List.range count).map _).getD i _ = _
  exact getD_range_map _ count i _ hi

theorem makeOneItem_hashtags (caps tags : List String) (env : CapEnv) (i : Nat) :
    (makeOneItem caps tags env i).hashtags =
      shuffleList (env.itemShuf i)
        (pickUnique (6 + env.neededR i % 5)
          (tags.drop ((i * 3) % tags.length) ++
           tags.take ((i * 3) % tags.length))) := rfl

theorem pickUniqueAux_eq_take (needed : Nat) :
    ∀ (pool acc : List String), (acc ++ pool).Nodup → acc.length < needed →
      pickUniqueAux needed acc pool = acc ++ pool.take (needed - acc.length) := by
  intro pool
  induction pool with
  | nil => intro acc _ _; simp [pickUniqueAux]
  | cons t rest ih =>
    intro acc hnd hlen
    have ht : t ∉ acc := by
      have hdisj := (List.nodup_append.mp hnd).2.2
      exact fun hmem => hdisj hmem (List.mem_cons_self t rest)
    show (if needed ≤ (if t ∈ acc then acc else acc ++ [t]).length
            then (if t ∈ acc then acc else acc ++ [t])
            else pickUniqueAux needed (if t ∈ acc then acc else acc ++ [t]) rest) =
          acc ++ (t :: rest).take (needed - acc.length)
    rw [if_neg ht]
    by_cases hstop : needed ≤ (acc ++ [t]).length
    · rw [if_pos hstop]
      have heq : needed - acc.length = 1 := by
        simp only [List.length_append, List.length_cons, List.length_nil] at hstop
        omega
      rw [heq]
      simp
    · rw [if_neg hstop]
      have hnd2 : ((acc ++ [t]) ++ rest).Nodup := by
        simpa [List.append_assoc] using hnd
      have hlen2 : (acc ++ [t]).length < needed := by
        simp only [List.length_append, List.length_cons, List.length_nil] at hstop ⊢
        omega
      rw [ih (acc ++ [t]) hnd2 hlen2]
      have hm : needed - acc.length = (needed - (acc ++ [t]).length) + 1 := by
        simp only [List.length_append, List.length_cons, List.length_nil]
        simp only [List.length_append, List.length_cons, List.length_nil] at hstop
        omega
      rw [hm, List.take_succ_cons]
      simp

theorem pickUnique_eq_take (needed : Nat) (pool : List String)
    (hnd : pool.Nodup) (hpos : 0 < needed) :
    pickUnique needed pool = pool.take needed := by
  have h := pickUniqueAux_eq_take needed pool [] (by simpa using hnd)
    (by simpa using hpos)
  simpa [pickUnique] using h

theorem mem_take_rotate_iff (tags : List String) (hnd : tags.Nodup)
    (hlen : tags.length = 53) (s n p : Nat) (hs : s < 53) (hn : n ≤ 53)
    (hp : p < tags.length) :
    tags[p] ∈ (tags.rotate s).take n ↔ (p + 53 - s) % 53 < n := by
  constructor
  · intro hmem
    rw [List.mem_iff_getElem] at hmem
    obtain ⟨k, hk, hEq⟩ := hmem
    have hkn : k < n := by
      simp only [List.length_take, List.length_rotate, hlen] at hk
      omega
    rw [List.getElem_take, List.getElem_rotate] at hEq
    have hidx := (List.Nodup.getElem_inj_iff hnd).mp hEq
    rw [hlen] at hidx
    omega
  · intro hlt
    rw [List.mem_iff_getElem]
    have hq : (p + 53 - s) % 53 < ((tags.rotate s).take n).length := by
      simp only [List.length_take, List.length_rotate, hlen]
      omega
    refine ⟨(p + 53 - s) % 53, hq, ?_⟩
    rw [List.getElem_take, List.getElem_rotate]
    have hidx : ((p + 53 - s) % 53 + s) % tags.length = p := by
      rw [hlen]
      omega
    simp only [hidx]

theorem take_rotate_not_perm (tags : List String) (hnd : tags.Nodup)
    (hlen : tags.length = 53) (s1 s2 n1 n2 : Nat) (hs1 : s1 < 53) (hs2 : s2 < 53)
    (hne : s1 ≠ s2) (hn1 : 0 < n1) (hn1u : n1 ≤ 52) (hn2 : 0 < n2) (hn2u : n2 ≤ 52) :
    ¬ List.Perm ((tags.rotate s1).take n1) ((tags.rotate s2).take n2) := by
  intro hperm
  have hlen1 : ((tags.rotate s1).take n1).length = n1 := by
    simp only [List.length_take, List.length_rotate, hlen]
    omega
  have hlen2 : ((tags.rotate s2).take n2).length = n2 := by
    simp only [List.length_take, List.length_rotate, hlen]
    omega
  have hn12 : n1 = n2 := by
    have := hperm.length_eq
    rw [hlen1, hlen2] at this
    exact this
  subst hn12
  have hps1 : s1 < tags.length := by omega
  have hfirst : tags[s1] ∈ (tags.rotate s1).take n1 := by
    rw [mem_take_rotate_iff tags hnd hlen s1 n1 s1 hs1 (by omega) hps1]
    omega
  have hfirst2 := hperm.mem_iff.mp hfirst
  rw [mem_take_rotate_iff tags hnd hlen s2 n1 s1 hs2 (by omega) hps1] at hfirst2
  have hpp : (s1 + 52) % 53 < tags.length := by
    rw [hlen]
    omega
  have hpred : ¬ tags[(s1 + 52) % 53] ∈ (tags.rotate s1).take n1 := by
    rw [mem_take_rotate_iff tags hnd hlen s1 n1 ((s1 + 52) % 53) hs1 (by omega) hpp]
    omega
  have hpred2 : ¬ tags[(s1 + 52) % 53] ∈ (tags.rotate s2).take n1 :=
    fun hm => hpred (hperm.mem_iff.mpr hm)
  rw [mem_take_rotate_iff tags hnd hlen s2 n1 ((s1 + 52) % 53) hs2 (by omega) hpp]
    at hpred2
  omega

theorem item_hashtags_window (env : CapEnv) (tags : List String)
    (hnd : tags.Nodup) (hlen : tags.length = 53) (caps : List String) (k : Nat) :
    List.Perm (makeOneItem caps tags env k).hashtags
      ((tags.rotate ((k * 3) % 53)).take (6 + env.neededR k % 5)) := by
  rw [makeOneItem_hashtags]
  have hs : (k * 3) % tags.length = (k * 3) % 53 := by rw [hlen]
  rw [hs]
  have hrot : tags.drop ((k * 3) % 53) ++ tags.take ((k * 3) % 53) =
      tags.rotate ((k * 3) % 53) :=
    (List.rotate_eq_drop_append_take (by rw [hlen]; omega)).symm
  rw [hrot]
  rw [pickUnique_eq_take _ _ (List.nodup_rotate.mpr hnd) (by omega)]
  exact shuffleList_perm _ _

/-- C7: with `noCaptionMode` unset and a requested count at most the hashtag
pool size (53), no two items of one `makeBatchCaptions` call receive the same
hashtag list (they even differ as multisets, for every possible sequence of
random draws), and no item's hashtag list contains a duplicate tag. -/
theorem claim7_hashtags_distinct_nodup (env : CapEnv) (count : Nat)
    (theme : String) (hc : count ≤ 53) (i j : Nat) (hi : i < count)
    (hj : j < count) (hij : i ≠ j) :
    ((makeBatchCaptions CAPTIONS HASHTAGS env count false theme).getD i
        ⟨"", []⟩).hashtags ≠
      ((makeBatchCaptions CAPTIONS HASHTAGS env count false theme).getD j
        ⟨"", []⟩).hashtags ∧
    ((makeBatchCaptions CAPTIONS HASHTAGS env count false theme).getD i
        ⟨"", []⟩).hashtags.Nodup := by
  rw [makeBatchCaptions_getD _ _ _ _ _ i hi, makeBatchCaptions_getD _ _ _ _ _ j hj]
  set tags := shuffleList env.tagShuf HASHTAGS with htags
  have htperm : List.Perm tags HASHTAGS := shuffleList_perm _ _
  have htnd : tags.Nodup := htperm.nodup_iff.mpr HASHTAGS_nodup
  have htlen : tags.length = 53 := by rw [htperm.length_eq, HASHTAGS_length]
  have hwi := item_hashtags_window env tags htnd htlen
    (shuffleList env.capShuf CAPTIONS) i
  have hwj := item_hashtags_window env tags htnd htlen
    (shuffleList env.capShuf CAPTIONS) j
  constructor
  · intro heq
    have h1 := hwi.symm
    rw [heq] at h1
    have hperm := h1.trans hwj
    have hsne : (i * 3) % 53 ≠ (j * 3) % 53 := by omega
    exact take_rotate_not_perm tags htnd htlen _ _ _ _ (by omega) (by omega)
      hsne (by omega) (by omega) (by omega) (by omega) hperm
  · have hndW : ((tags.rotate ((i * 3) % 53)).take (6 + env.neededR i % 5)).Nodup :=
      List.Nodup.sublist (List.take_sublist _ _) (List.nodup_rotate.mpr htnd)
    exact hwi.nodup_iff.mpr hndW

/-- A concrete random-draw environment (all draws 0) used to instantiate
theorems with hypotheses. -/
def capEnvZero : CapEnv := ⟨fun _ => 0, fun _ => 0, fun _ => 0, fun _ _ => 0⟩

/-- Witness for C7: the hypotheses hold and the conclusion follows at the
concrete input `count = 2`, items 0 and 1, all random draws 0. -/
theorem claim7_witness :
    (2 ≤ 53 ∧ 0 < 2 ∧ 1 < 2 ∧ (0 : Nat) ≠ 1) ∧
    (((makeBatchCaptions CAPTIONS HASHTAGS capEnvZero 2 false "snus").getD 0
        ⟨"", []⟩).hashtags ≠
      ((makeBatchCaptions CAPTIONS HASHTAGS capEnvZero 2 false "snus").getD 1
        ⟨"", []⟩).hashtags ∧
    ((makeBatchCaptions CAPTIONS HASHTAGS capEnvZero 2 false "snus").getD 0
        ⟨"", []⟩).hashtags.Nodup) :=
  ⟨⟨by decide, by decide, by decide, by decide⟩,
   claim7_hashtags_distinct_nodup capEnvZero 2 "snus" (by decide) 0 1 (by decide)
     (by decide) (by decide)⟩

/-- C8: when `noCaptionMode` is requested, `makeBatchCaptions` returns exactly
`count` assignments, each the empty caption with an empty hashtag list, and
does so uniformly in the caption and hashtag pools (the pools are never
consulted: the result is the same for every pool). -/
theorem claim8_no_caption_mode (capsPool tagsPool : List String) (env : CapEnv)
    (count : Nat) (theme : String) :
    makeBatchCaptions capsPool tagsPool env count true theme =
      List.replicate count ⟨"", []⟩ := rfl

/-- C5: `tryAcquireBatch` succeeds and increments the in-flight counter
exactly when the counter is below the configured maximum, leaves the counter
unchanged when it fails, and `releaseBatch` decrements the counter floored at
zero. -/
theorem claim5_limiter_contract (m a : Int) :
    ((tryAcquireBatch m a).1 = true ↔ a < m) ∧
    ((tryAcquireBatch m a).2 = if a < m then a + 1 else a) ∧
    releaseBatch a = max 0 (a - 1) ∧ 0 ≤ releaseBatch a := by
  refine ⟨?_, ?_, rfl, le_max_left 0 _⟩
  · unfold tryAcquireBatch
    by_cases h : a ≥ m
    · rw [if_pos h]
      simp
      omega
    · rw [if_neg h]
      simp
      omega
  · unfold tryAcquireBatch
    by_cases h : a ≥ m
    · rw [if_pos h, if_neg (by omega)]
    · rw [if_neg h, if_pos (by omega)]

/-- C6 counterexample: encoding an already-encoded value is not a no-op — for
the one-character string containing a comma, applying `escapeCsv` to its own
output double-escapes instead of leaving it unchanged. -/
theorem claim6_counterexample :
    escapeCsv (escapeCsv [',']) ≠ escapeCsv [','] := by decide

/-- C6 amended: decoding the standard CSV quoting of the `escapeCsv` encoding
yields the original string back for every string; `escapeCsv` is however not
idempotent on values it quotes. -/
theorem claim6_amended_roundtrip (s : List Char) :
    csvDecode (escapeCsv s) = s := csvDecode_escapeCsv s

/-- C1 counterexample: the distinct global ordinals 0 and 1 receive
bit-identical transform parameter bundles, contradicting the claim that
bundles differ across distinct ordinals in one request. -/
theorem claim1_counterexample :
    transformParamBundle 0 = transformParamBundle 1 ∧ (0 : Nat) ≠ 1 :=
  ⟨rfl, by decide⟩

/-- C1 amended: every item of a request receives the identical constant
transform parameter bundle — `runFfmpegLevel1` derives nothing from the item
ordinal — and the full ffmpeg argument vector varies between items only in
the input and output path arguments. -/
theorem claim1_amended_constant_bundle (a b : Nat) (inputPath outPath : String) :
    transformParamBundle a = transformParamBundle b ∧
    runFfmpegLevel1Args inputPath outPath =
      ["-y", "-hide_banner", "-nostdin", "-i", inputPath] ++
        transformParamBundle a ++ ["-c:a", "copy", outPath] := ⟨rfl, rfl⟩

/-! ## Batch job loop (src/index.js, `processOneJob`)

The external effects of one loop iteration (download, ffmpeg, upload) either
produce a public URL or throw; the `try`/`catch` in the source turns a throw
into a pushed error record.  We model that externally-determined outcome as a
function from the item index to a `StageResult`, and quantify over it. -/

/-- One entry of the `results` array of `processOneJob`. -/
structure ResultRec where
  idx : Nat
  input_name : String
  input_path : String
  output_url : String
  caption : String
  hashtags : List String
deriving DecidableEq

/-- One entry of the `errors` array of `processOneJob`. -/
structure ErrorRec where
  idx : Nat
  input_path : String
  stage : String
  message : String
deriving DecidableEq

/-- Outcome of the effectful part (download, transform, upload) of one loop
iteration: the uploaded clip's public URL, or the caught error's stage label
and message. -/
inductive StageResult where
  | ok (url : String)
  | fail (stage msg : String)

/-- The external world of one `processOneJob` run: the per-item pipeline
outcome and the random draws consumed by `makeBatchCaptions`. -/
structure PipelineEnv where
  run : Nat → StageResult
  capEnv : CapEnv

/-- Model of `path.basename` for the POSIX-style storage paths in use. -/
def basename (s : String) : String := (s.splitOn "/").getLastD s

/-- One iteration of the `for` loop of `processOneJob` at index `i`: the
storage path is read and trimmed, an empty path yields a validation error
record, otherwise the pipeline outcome decides between a result record and an
error record. -/
def itemStep (run : Nat → StageResult) (pack : List CapItem)
    (paths : List String) (i : Nat) : Sum ResultRec ErrorRec :=
  let storagePath := (paths.getD i "").trim
  if storagePath = "" then
    Sum.inr ⟨i, storagePath, "validate", "invalid_path"⟩
  else
    match run i with
    | StageResult.ok url =>
      let cap := pack.getD i ⟨"", []⟩
      Sum.inl ⟨i, basename storagePath, storagePath, url, cap.caption,
        cap.hashtags⟩
    | StageResult.fail stage msg => Sum.inr ⟨i, storagePath, stage, msg⟩

/-- The loop of `processOneJob`, accumulating the `results` and `errors`
arrays in push order over the first `n` indices. -/
def runLoop (step : Nat → Sum ResultRec ErrorRec) :
    Nat → List ResultRec × List ErrorRec
  | 0 => ([], [])
  | n + 1 =>
    let acc := runLoop step n
    match step n with
    | Sum.inl r => (acc.1 ++ [r], acc.2)
    | Sum.inr e => (acc.1, acc.2 ++ [e])

/-- Model of the result/error accumulation of `processOneJob`: clamp the pool
to `min(paths.length, 20)`, draw the captions pack once, run the loop. -/
def processItems (env : PipelineEnv) (noCaptionMode : Bool) (theme : String)
    (paths : List String) : List ResultRec × List ErrorRec :=
  let maxCount := min paths.length 20
  let pack := makeBatchCaptions CAPTIONS HASHTAGS env.capEnv maxCount
    noCaptionMode theme
  runLoop (itemStep env.run pack paths) maxCount

/-- The final status assignment of `processOneJob`, the JavaScript ternary
`errors.length && results.length === 0 ? "error" : "done"`. -/
def jobFinalStatus (results : List ResultRec) (errors : List ErrorRec) : String :=
  if errors.length ≠ 0 ∧ results.length = 0 then "error" else "done"

theorem runLoop_length (step : Nat → Sum ResultRec ErrorRec) (n : Nat) :
    (runLoop step n).1.length + (runLoop step n).2.length = n := by
  induction n with
  | zero => rfl
  | succ n ih =>
    simp only [runLoop]
    cases h : step n with
    | inl r =>
      simp only [h, List.length_append, List.length_cons, List.length_nil]
      omega
    | inr e =>
      simp only [h, List.length_append, List.length_cons, List.length_nil]
      omega

theorem processItems_length (env : PipelineEnv) (noCaptionMode : Bool)
    (theme : String) (paths : List String) :
    (processItems env noCaptionMode theme paths).1.length +
      (processItems env noCaptionMode theme paths).2.length =
      min paths.length 20 := by
  unfold processItems
  exact runLoop_length _ _

/-- A concrete pipeline environment in which every item succeeds. -/
def pipelineEnvAllOk : PipelineEnv := ⟨fun _ => StageResult.ok "u", capEnvZero⟩

/-- C2 amended: for every pool, the batch job attempts exactly
`min(poolSize, 20)` items, each exactly once (the code supports no variant
count; effectively one variant), and the accumulated success records plus
failure records sum to that number. -/
theorem claim2_amended_pairs_processed (env : PipelineEnv)
    (noCaptionMode : Bool) (theme : String) (paths : List String) :
    (processItems env noCaptionMode theme paths).1.length +
      (processItems env noCaptionMode theme paths).2.length =
      min paths.length 20 :=
  processItems_length env noCaptionMode theme paths

/-- C2 counterexample: a pool of 21 items with one requested variant yields
only 20 attempted pairs and 20 accumulated records, not 21 x 1 as claimed. -/
theorem claim2_counterexample :
    (processItems pipelineEnvAllOk true "snus" (List.replicate 21 "a")).1.length +
      (processItems pipelineEnvAllOk true "snus"
        (List.replicate 21 "a")).2.length = 20 ∧ (20 : Nat) ≠ 21 * 1 :=
  ⟨(processItems_length _ _ _ _).trans (by decide), by decide⟩

/-- C3: for a non-empty pool that runs to completion, the job status is
`done` exactly when at least one item succeeded, and `error` exactly when no
item succeeded and at least one failure was recorded. -/
theorem claim3_final_status (env : PipelineEnv) (noCaptionMode : Bool)
    (theme : String) (paths : List String) (h : paths ≠ []) :
    (jobFinalStatus (processItems env noCaptionMode theme paths).1
        (processItems env noCaptionMode theme paths).2 = "done" ↔
      (processItems env noCaptionMode theme paths).1 ≠ []) ∧
    (jobFinalStatus (processItems env noCaptionMode theme paths).1
        (processItems env noCaptionMode theme paths).2 = "error" ↔
      ((processItems env noCaptionMode theme paths).1 = [] ∧
        (processItems env noCaptionMode theme paths).2 ≠ [])) := by
  have hsum := processItems_length env noCaptionMode theme paths
  have hpos : 0 < min paths.length 20 := by
    have := List.length_pos.mpr h
    omega
  set rs := (processItems env noCaptionMode theme paths).1 with hrs
  set es := (processItems env noCaptionMode theme paths).2 with hes
  by_cases hr : rs = []
  · have hes' : es ≠ [] := by
      intro he
      rw [hr, he] at hsum
      simp only [List.length_nil] at hsum
      omega
    have hstat : jobFinalStatus rs es = "error" := by
      unfold jobFinalStatus
      rw [if_pos ⟨by simpa [List.length_eq_zero] using hes', by simp [hr]⟩]
    rw [hstat]
    exact ⟨⟨fun hco => absurd hco (by decide), fun hco => absurd hr hco⟩,
           ⟨fun _ => ⟨hr, hes'⟩, fun _ => rfl⟩⟩
  · have hstat : jobFinalStatus rs es = "done" := by
      unfold jobFinalStatus
      rw [if_neg]
      intro hand
      exact hr (List.length_eq_zero.mp hand.2)
    rw [hstat]
    exact ⟨⟨fun _ => hr, fun _ => rfl⟩,
           ⟨fun hco => absurd hco (by decide), fun hco => absurd hco.1 hr⟩⟩

/-- Witness for C3: the hypothesis holds and the conclusion follows for the
concrete one-element pool with an all-success pipeline. -/
theorem claim3_witness :
    ((["a"] : List String) ≠ []) ∧
    ((jobFinalStatus (processItems pipelineEnvAllOk true "snus" ["a"]).1
        (processItems pipelineEnvAllOk true "snus" ["a"]).2 = "done" ↔
      (processItems pipelineEnvAllOk true "snus" ["a"]).1 ≠ []) ∧
    (jobFinalStatus (processItems pipelineEnvAllOk true "snus" ["a"]).1
        (processItems pipelineEnvAllOk true "snus" ["a"]).2 = "error" ↔
      ((processItems pipelineEnvAllOk true "snus" ["a"]).1 = [] ∧
        (processItems pipelineEnvAllOk true "snus" ["a"]).2 ≠ []))) :=
  ⟨by decide, claim3_final_status pipelineEnvAllOk true "snus" ["a"] (by decide)⟩

theorem getD_take (l : List String) (n i : Nat) (d : String) (hi : i < n) :
    (l.take n).getD i d = l.getD i d := by
  by_cases h : i < l.length
  · have h1 : i < (l.take n).length := by
      simp only [List.length_take]
      omega
    rw [List.getD_eq_getElem _ _ h1, List.getD_eq_getElem _ _ h]
    simp [List.getElem_take]
  · have h1 : (l.take n).length ≤ i := by
      simp only [List.length_take]
      omega
    rw [List.getD_eq_default _ _ h1, List.getD_eq_default _ _ (by omega)]

theorem runLoop_congr (s1 s2 : Nat → Sum ResultRec ErrorRec) (n : Nat)
    (h : ∀ i, i < n → s1 i = s2 i) : runLoop s1 n = runLoop s2 n := by
  induction n with
  | zero => rfl
  | succ n ih =>
    simp only [runLoop]
    rw [ih (fun i hi => h i (by omega)), h n (by omega)]

/-- C9: at most 20 items are ever processed — for a pool of more than 20
paths the job behaves exactly as on the pool truncated to its first 20
entries (the rest are silently dropped), and the final result-plus-error
count is 20, not the pool size. -/
theorem claim9_cap_twenty (env : PipelineEnv) (noCaptionMode : Bool)
    (theme : String) (paths : List String) (h : 20 < paths.length) :
    processItems env noCaptionMode theme paths =
      processItems env noCaptionMode theme (paths.take 20) ∧
    (processItems env noCaptionMode theme paths).1.length +
      (processItems env noCaptionMode theme paths).2.length = 20 := by
  have hmin1 : min paths.length 20 = 20 := by omega
  have hmin2 : min (paths.take 20).length 20 = 20 := by
    simp only [List.length_take]
    omega
  constructor
  · unfold processItems
    rw [hmin1, hmin2]
    apply runLoop_congr
    intro i hi
    unfold itemStep
    rw [getD_take paths 20 i "" hi]
  · exact (processItems_length env noCaptionMode theme paths).trans hmin1

/-- Witness for C9: the hypothesis holds and the conclusion follows for a
concrete pool of 21 identical paths. -/
theorem claim9_witness :
    (20 < (List.replicate 21 "a").length) ∧
    (processItems pipelineEnvAllOk true "snus" (List.replicate 21 "a") =
      processItems pipelineEnvAllOk true "snus"
        ((List.replicate 21 "a").take 20) ∧
    (processItems pipelineEnvAllOk true "snus" (List.replicate 21 "a")).1.length +
      (processItems pipelineEnvAllOk true "snus"
        (List.replicate 21 "a")).2.length = 20) :=
  ⟨by decide,
   claim9_cap_twenty pipelineEnvAllOk true "snus" (List.replicate 21 "a")
     (by decide)⟩

/-! ## Job queue and scheduler (src/index.js, `processQueue`)

`processQueue` pops job ids off the FIFO while `tryAcquireBatch` grants a
slot, starts `processOneJob` without awaiting it, and attaches a `.catch`
handler that only logs and a `.finally` handler that releases the slot and
re-kicks the loop.  We model the default sequential schedule (one worker):
each dequeued job's promise settles — normal completion or a crash — before
the released slot lets the next job start.  The registry is projected to the
per-job `status` field, the only job state the claim concerns. -/

/-- The outcome of one job's `processOneJob` promise: it either resolves,
leaving the job with the final status it assigned, or rejects (crashes),
leaving the job with whatever status it had reached when it threw. -/
inductive RunOutcome where
  | completes (status : String)
  | crashes (statusAtCrash : String)

/-- The job's registry status after its promise settles and the scheduler's
handlers run: the `.catch` handler only logs — it writes nothing to the job —
so the status is whatever the execution left behind. -/
def statusAfterRun : RunOutcome → String
  | RunOutcome.completes s => s
  | RunOutcome.crashes s => s

/-- Registry lookup (`jobs.get(batchId)`) on an association list keyed by
batch id, carrying each job's status. -/
def lookupStatus : List (String × String) → String → Option String
  | [], _ => none
  | p :: rest, id => if p.1 = id then some p.2 else lookupStatus rest id

/-- Registry update: set the status of the job with the given id. -/
def setStatus (jobs : List (String × String)) (id s : String) :
    List (String × String) :=
  jobs.map (fun p => if p.1 = id then (p.1, s) else p)

/-- Model of the `processQueue` drain loop: while the queue is non-empty, try
to acquire a limiter slot (stopping when denied); pop the head id; a missing
registry entry just releases the slot and continues; otherwise the job runs
to its outcome and the `finally` handler releases the slot and re-kicks the
loop.  Returns the final registry and limiter counter. -/
def processQueue (maxConcurrent : Int) (outcomes : String → RunOutcome) :
    List String → List (String × String) → Int →
      List (String × String) × Int
  | [], jobs, active => (jobs, active)
  | hd :: rest, jobs, active =>
    let t := tryAcquireBatch maxConcurrent active
    if t.1 then
      match lookupStatus jobs hd with
      | none => processQueue maxConcurrent outcomes rest jobs (releaseBatch t.2)
      | some _ =>
        processQueue maxConcurrent outcomes rest
          (setStatus jobs hd (statusAfterRun (outcomes hd))) (releaseBatch t.2)
    else (jobs, t.2)

theorem lookupStatus_setStatus_self (jobs : List (String × String))
    (id s : String) :
    lookupStatus (setStatus jobs id s) id =
      (lookupStatus jobs id).map (fun _ => s) := by
  induction jobs with
  | nil => rfl
  | cons p rest ih =>
    by_cases h : p.1 = id
    · simp [setStatus, lookupStatus, h]
    · simp only [setStatus, List.map_cons, if_neg h]
      simp only [lookupStatus, if_neg h]
      exact ih

theorem lookupStatus_setStatus_other (jobs : List (String × String))
    (k s id : String) (hne : id ≠ k) :
    lookupStatus (setStatus jobs k s) id = lookupStatus jobs id := by
  induction jobs with
  | nil => rfl
  | cons p rest ih =>
    by_cases hk : p.1 = k
    · have hpid : ¬(p.1 = id) := fun he => hne (he.symm.trans hk)
      simp only [setStatus, List.map_cons, if_pos hk]
      simp only [lookupStatus, if_neg hpid]
      exact ih
    · simp only [setStatus, List.map_cons, if_neg hk]
      by_cases hid : p.1 = id
      · simp only [lookupStatus, if_pos hid]
      · simp only [lookupStatus, if_neg hid]
        exact ih

theorem lookupStatus_setStatus_isSome (jobs : List (String × String))
    (k s id : String) (h : ∃ v, lookupStatus jobs id = some v) :
    ∃ v, lookupStatus (setStatus jobs k s) id = some v := by
  obtain ⟨v, hv⟩ := h
  by_cases hid : id = k
  · subst hid
    rw [lookupStatus_setStatus_self, hv]
    exact ⟨s, rfl⟩
  · rw [lookupStatus_setStatus_other _ _ _ _ hid]
    exact ⟨v, hv⟩

theorem processQueue_preserves (maxc : Int) (outcomes : String → RunOutcome) :
    ∀ (queue : List String) (jobs : List (String × String)) (active : Int)
      (id : String),
      lookupStatus jobs id = some (statusAfterRun (outcomes id)) →
      lookupStatus (processQueue maxc outcomes queue jobs active).1 id =
        some (statusAfterRun (outcomes id)) := by
  intro queue
  induction queue with
  | nil => intro jobs active id hla; exact hla
  | cons hd rest ih =>
    intro jobs active id hla
    simp only [processQueue]
    by_cases ht : (tryAcquireBatch maxc active).1 = true
    · rw [if_pos ht]
      cases hlk : lookupStatus jobs hd with
      | none => exact ih jobs _ id hla
      | some s0 =>
        apply ih
        by_cases hid : id = hd
        · subst hid
          rw [lookupStatus_setStatus_self, hla]
          rfl
        · rw [lookupStatus_setStatus_other _ _ _ _ hid]
          exact hla
    · rw [if_neg ht]
      exact hla

theorem processQueue_drains (maxc : Int) (outcomes : String → RunOutcome) :
    ∀ (queue : List String) (jobs : List (String × String)) (active : Int),
      0 ≤ active → active < maxc →
      (processQueue maxc outcomes queue jobs active).2 = active ∧
      (∀ id ∈ queue, (∃ s, lookupStatus jobs id = some s) →
        lookupStatus (processQueue maxc outcomes queue jobs active).1 id =
          some (statusAfterRun (outcomes id))) := by
  intro queue
  induction queue with
  | nil =>
    intro jobs active h0 hm
    exact ⟨rfl, by simp⟩
  | cons hd rest ih =>
    intro jobs active h0 hm
    have ht : (tryAcquireBatch maxc active).1 = true := by
      unfold tryAcquireBatch
      rw [if_neg (by omega)]
    have hrel : releaseBatch (tryAcquireBatch maxc active).2 = active := by
      unfold tryAcquireBatch releaseBatch
      rw [if_neg (by omega)]
      simp
      omega
    simp only [processQueue]
    rw [if_pos ht]
    cases hlk : lookupStatus jobs hd with
    | none =>
      rw [hrel]
      refine ⟨(ih jobs active h0 hm).1, ?_⟩
      intro id hmem hpres
      rcases List.mem_cons.mp hmem with heq | hmem'
      · subst heq
        obtain ⟨s, hs⟩ := hpres
        rw [hlk] at hs
        exact absurd hs (by simp)
      · exact (ih jobs active h0 hm).2 id hmem' hpres
    | some s0 =>
      rw [hrel]
      set jobs2 := setStatus jobs hd (statusAfterRun (outcomes hd)) with hj2
      refine ⟨(ih jobs2 active h0 hm).1, ?_⟩
      intro id hmem hpres
      rcases List.mem_cons.mp hmem with heq | hmem'
      · subst heq
        apply processQueue_preserves
        rw [hj2, lookupStatus_setStatus_self, hlk]
        rfl
      · exact (ih jobs2 active h0 hm).2 id hmem'
          (lookupStatus_setStatus_isSome jobs hd _ id hpres)

/-- C4 amended: when a job's execution crashes, the scheduler catches the
fault, releases the limiter slot (the counter returns to its initial value),
and keeps draining — every registered queued job still reaches the status its
own run produces.  The crash handler writes nothing to the job, so a crashed
job keeps the status its own execution last set (it is not marked failed). -/
theorem claim4_amended_queue_drains (maxc : Int)
    (outcomes : String → RunOutcome) (queue : List String)
    (jobs : List (String × String)) (active : Int) (h0 : 0 ≤ active)
    (hm : active < maxc) :
    (processQueue maxc outcomes queue jobs active).2 = active ∧
    (∀ id ∈ queue, (∃ s, lookupStatus jobs id = some s) →
      lookupStatus (processQueue maxc outcomes queue jobs active).1 id =
        some (statusAfterRun (outcomes id))) ∧
    (∀ s, statusAfterRun (RunOutcome.crashes s) = s) :=
  ⟨(processQueue_drains maxc outcomes queue jobs active h0 hm).1,
   (processQueue_drains maxc outcomes queue jobs active h0 hm).2,
   fun _ => rfl⟩

/-- C4 counterexample: job `b1` crashes while in status `processing`; the
queue still drains (`b2` completes) and the slot count returns to zero, but
`b1` is left with status `processing` — it is not marked failed, refuting the
final conjunct of the claim. -/
theorem claim4_counterexample :
    (processQueue 1
        (fun id => if id = "b1" then RunOutcome.crashes "processing"
          else RunOutcome.completes "done")
        ["b1", "b2"] [("b1", "queued"), ("b2", "queued")] 0).1 =
      [("b1", "processing"), ("b2", "done")] ∧
    (processQueue 1
        (fun id => if id = "b1" then RunOutcome.crashes "processing"
          else RunOutcome.completes "done")
        ["b1", "b2"] [("b1", "queued"), ("b2", "queued")] 0).2 = 0 ∧
    "processing" ≠ "failed" ∧ "processing" ≠ "error" := by
  refine ⟨?_, ?_, by decide, by decide⟩ <;> rfl

/-- Witness for C4: the hypotheses hold and the conclusion follows at a
concrete one-job queue with a free limiter. -/
theorem claim4_witness :
    ((0 : Int) ≤ 0 ∧ (0 : Int) < 1) ∧
    ((processQueue 1 (fun _ => RunOutcome.completes "done") ["b1"]
        [("b1", "queued")] 0).2 = 0 ∧
     (∀ id ∈ ["b1"], (∃ s, lookupStatus [("b1", "queued")] id = some s) →
        lookupStatus ((processQueue 1 (fun _ => RunOutcome.completes "done")
            ["b1"] [("b1", "queued")] 0).1) id =
          some (statusAfterRun ((fun _ => RunOutcome.completes "done") id))) ∧
     (∀ s, statusAfterRun (RunOutcome.crashes s) = s)) :=
  ⟨⟨by decide, by decide⟩,
   claim4_amended_queue_drains 1 (fun _ => RunOutcome.completes "done")
     ["b1"] [("b1", "queued")] 0 (by decide) (by decide)⟩

/-! ## Status polling endpoint (src/index.js, `GET /batch/:batchId`)

The handler looks the job up in the registry, answers 404 when missing, and
otherwise destructures away the `payload` field and returns the remaining
fields unchanged; it performs no write. -/

/-- The submitted payload stored on a job by `createJob` (the storage paths
and options of the request). -/
structure JobPayload where
  paths : List String
  noCaptionMode : Bool
  level : String
  theme : String
deriving DecidableEq

/-- A registry entry as created by `createJob` and mutated by
`processOneJob`.  Timestamps are `Date.now()` milliseconds. -/
structure Job where
  ok : Bool
  batchId : String
  status : String
  progress : Nat
  createdAt : Nat
  updatedAt : Nat
  payload : JobPayload
  results : List ResultRec
  errors : List ErrorRec
  csv_url : Option String
  zip_url : Option String
  level : String
  noCaptionMode : Bool
  theme : String
  count : Nat
deriving DecidableEq

/-- The response shape of the polling endpoint: every `Job` field except
`payload` (removed by the rest-destructuring in the handler). -/
structure PublicJob where
  ok : Bool
  batchId : String
  status : String
  progress : Nat
  createdAt : Nat
  updatedAt : Nat
  results : List ResultRec
  errors : List ErrorRec
  csv_url : Option String
  zip_url : Option String
  level : String
  noCaptionMode : Bool
  theme : String
  count : Nat
deriving DecidableEq

/-- The rest-destructuring `const` spread of the handler: drop `payload`. -/
def publicView (j : Job) : PublicJob :=
  ⟨j.ok, j.batchId, j.status, j.progress, j.createdAt, j.updatedAt, j.results,
   j.errors, j.csv_url, j.zip_url, j.level, j.noCaptionMode, j.theme, j.count⟩

/-- Registry lookup for full job records (`jobs.get(batchId)`). -/
def lookupJob : List (String × Job) → String → Option Job
  | [], _ => none
  | p :: rest, id => if p.1 = id then some p.2 else lookupJob rest id

/-- Model of the `GET /batch/:batchId` handler: the response (`none` for the
404 case) together with the registry it leaves behind.  The source performs
only `jobs.get` and a destructuring read, so the registry is returned as
received. -/
def getBatchHandler (registry : List (String × Job)) (batchId : String) :
    Option PublicJob × List (String × Job) :=
  (Option.map publicView (lookupJob registry batchId), registry)

/-- C10: for every registry and id, polling returns the registered job with
its `payload` removed (the response type has no payload field) and every
other field returned unchanged, answers `none` when the job is missing, and
never mutates the registry. -/
theorem claim10_status_endpoint (registry : List (String × Job))
    (batchId : String) :
    (getBatchHandler registry batchId).2 = registry ∧
    (getBatchHandler registry batchId).1 =
      Option.map publicView (lookupJob registry batchId) ∧
    (∀ j : Job, (publicView j).ok = j.ok ∧ (publicView j).batchId = j.batchId ∧
      (publicView j).status = j.status ∧ (publicView j).progress = j.progress ∧
      (publicView j).createdAt = j.createdAt ∧
      (publicView j).updatedAt = j.updatedAt ∧
      (publicView j).results = j.results ∧ (publicView j).errors = j.errors ∧
      (publicView j).csv_url = j.csv_url ∧ (publicView j).zip_url = j.zip_url ∧
      (publicView j).level = j.level ∧
      (publicView j).noCaptionMode = j.noCaptionMode ∧
      (publicView j).theme = j.theme ∧ (publicView j).count = j.count) :=
  ⟨rfl, rfl, fun _ =>
    ⟨rfl, rfl, rfl, rfl, rfl, rfl, rfl, rfl, rfl, rfl, rfl, rfl, rfl, rfl⟩⟩

end ContentMolle
